import Mathlib

/-!
Verification of the generic threshold job-coordination protocol
(`JobSession` in `secret_store/src/key_server_cluster/jobs/job_session.rs`)
against its natural-language specification.

The Rust code is shallowly embedded: the stateful `JobSession` together with
its pluggable `JobExecutor` and `JobTransport` strategies becomes explicit
state passing.  `BTreeSet<NodeId>` is modelled as `Finset Nat`,
`BTreeMap<NodeId, R>` as an association list with the same key/value
semantics (`mapInsert` replaces an existing key, `mapErase` deletes it);
the iteration order of a map never matters to the properties below.
`Result<T, Error>` becomes `Except Error T`; a method taking `&mut self`
on a strategy threads the strategy's state through the call.  A Rust
`.expect(..)` panic is modelled by returning `none` at the session
operation's outer `Option` layer, and `debug_assert!` is absent, matching
release-build semantics.  The Rust method `initialize` is rendered as
`initializeSession`.
-/

namespace SecretStore

/-- Node identifiers (`NodeId`, a public key in the source) are modelled
as natural numbers: the code only ever compares and orders them. -/
abbrev NodeId := Nat

/-- The variants of `key_server_cluster::Error` used by `job_session.rs`;
every other variant (domain errors surfaced by an executor or transport)
is collapsed into `Other`. -/
inductive Error where
  | InvalidStateForRequest
  | InvalidMessage
  | InvalidNodeForRequest
  | ConsensusUnreachable
  | Other (code : Nat)
deriving DecidableEq, Repr

/-- `JobPartialResponseAction`: what the master's executor says about one
incoming partial response. -/
inductive JobPartialResponseAction where
  | Ignore
  | Reject
  | Accept
deriving DecidableEq, Repr

/-- `JobPartialRequestAction<PartialJobResponse>`: what a node's executor
produces for one incoming partial request. -/
inductive JobPartialRequestAction (R : Type) where
  | Reject (response : R)
  | Respond (response : R)
deriving DecidableEq, Repr

/-- `JobSessionState`: the session's lifecycle state. -/
inductive JobSessionState where
  | Inactive
  | Active
  | Finished
  | Failed
deriving DecidableEq, Repr

/-- `SessionMeta`: immutable identity/role/threshold descriptor. -/
structure SessionMeta where
  id : Nat
  master_node_id : NodeId
  self_node_id : NodeId
  threshold : Nat
deriving DecidableEq, Repr

/-- Keys of a `BTreeMap<NodeId, R>` modelled as an association list. -/
def mapKeys {R : Type} (m : List (NodeId × R)) : List NodeId :=
  m.map Prod.fst

/-- `BTreeMap::remove k`'s effect on the map. -/
def mapErase {R : Type} (m : List (NodeId × R)) (k : NodeId) : List (NodeId × R) :=
  m.filter (fun p => p.1 ≠ k)

/-- `BTreeMap::insert k v`'s effect on the map (replaces an existing key). -/
def mapInsert {R : Type} (m : List (NodeId × R)) (k : NodeId) (v : R) : List (NodeId × R) :=
  mapErase m k ++ [(k, v)]

/-- `ActiveJobSessionData`: the master-only mutable aggregate. -/
structure ActiveJobSessionData (R : Type) where
  requests : Finset NodeId
  rejects : Finset NodeId
  responses : List (NodeId × R)
deriving DecidableEq

/-- `JobSessionData`: state plus the optional master aggregate. -/
structure JobSessionData (R : Type) where
  state : JobSessionState
  active_data : Option (ActiveJobSessionData R)
deriving DecidableEq

/-- The `JobExecutor` strategy.  `σ` is the executor's own mutable state:
`process_partial_request` and `check_partial_response` take `&mut self`
in the source and so return the updated state alongside their result,
while `prepare_partial_request` and `compute_response` take `&self`. -/
structure JobExecutor (σ Q R J : Type) where
  prepare_partial_request : σ → NodeId → Finset NodeId → Except Error Q
  process_partial_request : σ → Q → Except Error (JobPartialRequestAction R) × σ
  check_partial_response : σ → NodeId → R → Except Error JobPartialResponseAction × σ
  compute_response : σ → List (NodeId × R) → Except Error J

/-- The `JobTransport` strategy with its own state `τ` (the source takes
`&self` but the test transport mutates through interior mutability, so
state passing covers both). -/
structure JobTransport (τ Q R : Type) where
  send_partial_request : τ → NodeId → Q → Except Error Unit × τ
  send_partial_response : τ → NodeId → R → Except Error Unit × τ

/-- `JobSession<Executor, Transport>`: meta, both strategies with their
states, and the session data. -/
structure JobSession (σ τ Q R J : Type) where
  meta : SessionMeta
  executor : JobExecutor σ Q R J
  exState : σ
  transport : JobTransport τ Q R
  trState : τ
  data : JobSessionData R

/-- `JobSession::new`: state `Inactive`, no active data. -/
def JobSession.new {σ τ Q R J : Type} (meta : SessionMeta) (executor : JobExecutor σ Q R J)
    (exState : σ) (transport : JobTransport τ Q R) (trState : τ) : JobSession σ τ Q R J :=
  { meta := meta, executor := executor, exState := exState,
    transport := transport, trState := trState,
    data := { state := JobSessionState.Inactive, active_data := none } }

/-- `JobSession::state`. -/
def JobSession.state {σ τ Q R J : Type} (s : JobSession σ τ Q R J) : JobSessionState :=
  s.data.state

/-- `JobSession::rejects`: `none` models the `expect` panic when
`active_data` is absent (the `debug_assert!` is compiled out in release). -/
def JobSession.rejects {σ τ Q R J : Type} (s : JobSession σ τ Q R J) :
    Option (Finset NodeId) :=
  s.data.active_data.map ActiveJobSessionData.rejects

/-- `JobSession::requests`: `none` models the `expect` panic when
`active_data` is absent. -/
def JobSession.requests {σ τ Q R J : Type} (s : JobSession σ τ Q R J) :
    Option (Finset NodeId) :=
  s.data.active_data.map ActiveJobSessionData.requests

/-- `JobSession::responses`: `none` models the `expect` panic when
`active_data` is absent. -/
def JobSession.responses {σ τ Q R J : Type} (s : JobSession σ τ Q R J) :
    Option (List (NodeId × R)) :=
  s.data.active_data.map ActiveJobSessionData.responses

/-- `JobSession::result`: `InvalidStateForRequest` unless `Finished`,
then the executor combines the accepted responses; `none` models the
`expect` panic when `active_data` is absent. -/
def JobSession.result {σ τ Q R J : Type} (s : JobSession σ τ Q R J) :
    Option (Except Error J) :=
  if s.data.state ≠ JobSessionState.Finished then
    some (Except.error Error.InvalidStateForRequest)
  else
    match s.data.active_data with
    | none => none
    | some ad => some (s.executor.compute_response s.exState ad.responses)

/-- `JobSession::on_partial_response` (master only).  The sender is removed
from `requests` before the executor's verdict is consulted; `none` models
the `expect` panic on a missing `active_data`. -/
def JobSession.on_partial_response {σ τ Q R J : Type} (s : JobSession σ τ Q R J)
    (node : NodeId) (response : R) :
    Option (Except Error Unit × JobSession σ τ Q R J) :=
  if s.meta.self_node_id ≠ s.meta.master_node_id then
    some (Except.error Error.InvalidMessage, s)
  else if s.data.state ≠ JobSessionState.Active ∧ s.data.state ≠ JobSessionState.Finished then
    some (Except.error Error.InvalidStateForRequest, s)
  else
    match s.data.active_data with
    | none => none
    | some ad =>
      if node ∉ ad.requests then
        some (Except.error Error.InvalidNodeForRequest, s)
      else
        match (s.executor.check_partial_response s.exState node response).1 with
        | Except.error e =>
          some (Except.error e,
            { s with
              exState := (s.executor.check_partial_response s.exState node response).2,
              data := ⟨s.data.state, some ⟨ad.requests.erase node, ad.rejects, ad.responses⟩⟩ })
        | Except.ok JobPartialResponseAction.Ignore =>
          some (Except.ok (),
            { s with
              exState := (s.executor.check_partial_response s.exState node response).2,
              data := ⟨s.data.state, some ⟨ad.requests.erase node, ad.rejects, ad.responses⟩⟩ })
        | Except.ok JobPartialResponseAction.Reject =>
          if s.meta.threshold + 1 ≤ (ad.requests.erase node).card + ad.responses.length then
            some (Except.ok (),
              { s with
                exState := (s.executor.check_partial_response s.exState node response).2,
                data := ⟨s.data.state,
                         some ⟨ad.requests.erase node, insert node ad.rejects, ad.responses⟩⟩ })
          else
            some (Except.error Error.ConsensusUnreachable,
              { s with
                exState := (s.executor.check_partial_response s.exState node response).2,
                data := ⟨JobSessionState.Failed,
                         some ⟨ad.requests.erase node, insert node ad.rejects, ad.responses⟩⟩ })
        | Except.ok JobPartialResponseAction.Accept =>
          if (mapInsert ad.responses node response).length < s.meta.threshold + 1 then
            some (Except.ok (),
              { s with
                exState := (s.executor.check_partial_response s.exState node response).2,
                data := ⟨s.data.state,
                         some ⟨ad.requests.erase node, ad.rejects,
                               mapInsert ad.responses node response⟩⟩ })
          else
            some (Except.ok (),
              { s with
                exState := (s.executor.check_partial_response s.exState node response).2,
                data := ⟨JobSessionState.Finished,
                         some ⟨ad.requests.erase node, ad.rejects,
                               mapInsert ad.responses node response⟩⟩ })

/-- `JobSession::on_partial_request` (slave only): role and state checks,
then the executor's verdict decides `Finished`/`Failed` before the
response is sent back to the master. -/
def JobSession.on_partial_request {σ τ Q R J : Type} (s : JobSession σ τ Q R J)
    (node : NodeId) (request : Q) :
    Except Error Unit × JobSession σ τ Q R J :=
  if node ≠ s.meta.master_node_id then
    (Except.error Error.InvalidMessage, s)
  else if s.meta.self_node_id = s.meta.master_node_id then
    (Except.error Error.InvalidMessage, s)
  else if s.data.state ≠ JobSessionState.Inactive ∧ s.data.state ≠ JobSessionState.Finished then
    (Except.error Error.InvalidStateForRequest, s)
  else
    match (s.executor.process_partial_request s.exState request).1 with
    | Except.error e =>
      (Except.error e, { s with exState := (s.executor.process_partial_request s.exState request).2 })
    | Except.ok (JobPartialRequestAction.Respond response) =>
      ((s.transport.send_partial_response s.trState node response).1,
       { s with exState := (s.executor.process_partial_request s.exState request).2,
                trState := (s.transport.send_partial_response s.trState node response).2,
                data := { s.data with state := JobSessionState.Finished } })
    | Except.ok (JobPartialRequestAction.Reject response) =>
      ((s.transport.send_partial_response s.trState node response).1,
       { s with exState := (s.executor.process_partial_request s.exState request).2,
                trState := (s.transport.send_partial_response s.trState node response).2,
                data := { s.data with state := JobSessionState.Failed } })

/-- `JobSession::on_node_error`.  On a slave only the master's failure
matters; on a master a node in `rejects` is ignored, a node in `requests`
or `responses` transfers to `rejects`, possibly reverting `Finished` to
`Active` and failing the round if the quorum drops below `threshold + 1`.
The `||` in the source short-circuits: `responses` is only touched when
the node was not in `requests`. -/
def JobSession.on_node_error {σ τ Q R J : Type} (s : JobSession σ τ Q R J)
    (node : NodeId) : Except Error Unit × JobSession σ τ Q R J :=
  if s.meta.self_node_id ≠ s.meta.master_node_id then
    if node ≠ s.meta.master_node_id then
      (Except.ok (), s)
    else
      (Except.error Error.ConsensusUnreachable,
        { s with data := { s.data with state := JobSessionState.Failed } })
  else
    match s.data.active_data with
    | none => (Except.ok (), s)
    | some ad =>
      if node ∈ ad.rejects then
        (Except.ok (), s)
      else if node ∈ ad.requests ∨ node ∈ mapKeys ad.responses then
        if s.meta.threshold + 1 ≤ (ad.requests.erase node).card +
            (if node ∈ ad.requests then ad.responses else mapErase ad.responses node).length then
          (Except.ok (),
            { s with
              data := ⟨if s.data.state = JobSessionState.Finished ∧
                          (if node ∈ ad.requests then ad.responses
                           else mapErase ad.responses node).length < s.meta.threshold + 1 then
                         JobSessionState.Active
                       else s.data.state,
                       some ⟨ad.requests.erase node, insert node ad.rejects,
                             if node ∈ ad.requests then ad.responses
                             else mapErase ad.responses node⟩⟩ })
        else
          (Except.error Error.ConsensusUnreachable,
            { s with
              data := ⟨JobSessionState.Failed,
                       some ⟨ad.requests.erase node, insert node ad.rejects,
                             if node ∈ ad.requests then ad.responses
                             else mapErase ad.responses node⟩⟩ })
      else
        (Except.ok (), s)

/-- `JobSession::on_session_timeout`: a no-op once `Finished` or `Failed`,
otherwise forces `Failed` and reports `ConsensusUnreachable`. -/
def JobSession.on_session_timeout {σ τ Q R J : Type} (s : JobSession σ τ Q R J) :
    Except Error Unit × JobSession σ τ Q R J :=
  if s.data.state = JobSessionState.Finished ∨ s.data.state = JobSessionState.Failed then
    (Except.ok (), s)
  else
    (Except.error Error.ConsensusUnreachable,
      { s with data := { s.data with state := JobSessionState.Failed } })

/-- The ascending enumeration of a node set: a `BTreeSet<NodeId>` iterates
its elements in ascending key order.  Proved equal to
`Finset.sort (· ≤ ·)` in `sortNodes_eq_sort`; this formulation reduces
inside the kernel, which `Finset.sort`'s merge sort does not. -/
def sortNodes (s : Finset NodeId) : List NodeId :=
  (List.range (s.sup id + 1)).filter (fun n => n ∈ s)

/-- The `for node in &active_data.requests` send loop of
`JobSession::initialize`: walk the node set in sorted order (a `BTreeSet`
iterates in key order), send a prepared partial request to every node but
self, remember whether self was seen, and stop at the first error. -/
def sendRequestsLoop {σ τ Q R J : Type} (e : JobExecutor σ Q R J) (exState : σ)
    (tr : JobTransport τ Q R) (selfId : NodeId) (requests : Finset NodeId) :
    List NodeId → τ → Bool → Except Error Unit × τ × Bool
  | [], trState, waits => (Except.ok (), trState, waits)
  | n :: ns, trState, waits =>
    if n ≠ selfId then
      match e.prepare_partial_request exState n requests with
      | Except.error err => (Except.error err, trState, waits)
      | Except.ok q =>
        match tr.send_partial_request trState n q with
        | (Except.error err, trState1) => (Except.error err, trState1, waits)
        | (Except.ok _, trState1) =>
          sendRequestsLoop e exState tr selfId requests ns trState1 waits
    else
      sendRequestsLoop e exState tr selfId requests ns trState true

/-- `JobSession::initialize` (the Rust name is refused by this
development's lexical conventions): node-count and state preconditions,
requests to all slave nodes, then commitment of `active_data` and the
`Active` state *before* self's own partial response (when self is among
the nodes) is replayed through `on_partial_response`. -/
def JobSession.initializeSession {σ τ Q R J : Type} (s : JobSession σ τ Q R J)
    (nodes : Finset NodeId) :
    Option (Except Error Unit × JobSession σ τ Q R J) :=
  if nodes.card < s.meta.threshold + 1 then
    some (Except.error Error.ConsensusUnreachable, s)
  else if s.data.state ≠ JobSessionState.Inactive then
    some (Except.error Error.InvalidStateForRequest, s)
  else
    match sendRequestsLoop s.executor s.exState s.transport s.meta.self_node_id nodes
        (sortNodes nodes) s.trState false with
    | (Except.error e, trState1, _) =>
      some (Except.error e, { s with trState := trState1 })
    | (Except.ok _, trState1, waits_for_self) =>
      if waits_for_self then
        match s.executor.prepare_partial_request s.exState s.meta.self_node_id nodes with
        | Except.error e => some (Except.error e, { s with trState := trState1 })
        | Except.ok q =>
          match s.executor.process_partial_request s.exState q with
          | (Except.error e, exState1) =>
            some (Except.error e, { s with trState := trState1, exState := exState1 })
          | (Except.ok (JobPartialRequestAction.Respond response), exState1) =>
            JobSession.on_partial_response
              { s with trState := trState1, exState := exState1,
                       data := { state := JobSessionState.Active,
                                 active_data := some { requests := nodes, rejects := ∅,
                                                       responses := [] } } }
              s.meta.self_node_id response
          | (Except.ok (JobPartialRequestAction.Reject response), exState1) =>
            JobSession.on_partial_response
              { s with trState := trState1, exState := exState1,
                       data := { state := JobSessionState.Active,
                                 active_data := some { requests := nodes, rejects := ∅,
                                                       responses := [] } } }
              s.meta.self_node_id response
      else
        some (Except.ok (),
          { s with trState := trState1,
                   data := { state := JobSessionState.Active,
                             active_data := some { requests := nodes, rejects := ∅,
                                                   responses := [] } } })

/-- The external events an owning cluster engine can feed into one
`JobSession`: `init` is the master's local `initialize` call, the rest
are incoming messages, a node-disconnect notification and timer expiry. -/
inductive Op (Q R : Type) where
  | init (nodes : Finset NodeId)
  | request (node : NodeId) (q : Q)
  | response (node : NodeId) (r : R)
  | nodeError (node : NodeId)
  | timeout
deriving DecidableEq

/-- One step of the session driven by one external event; `none` is a
panic (a failed `expect`). -/
def applyOp {σ τ Q R J : Type} (s : JobSession σ τ Q R J) :
    Op Q R → Option (Except Error Unit × JobSession σ τ Q R J)
  | Op.init nodes => s.initializeSession nodes
  | Op.request node q => some (s.on_partial_request node q)
  | Op.response node r => s.on_partial_response node r
  | Op.nodeError node => some (s.on_node_error node)
  | Op.timeout => some s.on_session_timeout

/-- The session states reachable from `s0` by any sequence of operations
(a panic makes no step: the process would be gone). -/
inductive Reachable {σ τ Q R J : Type} (s0 : JobSession σ τ Q R J) :
    JobSession σ τ Q R J → Prop where
  | refl : Reachable s0 s0
  | step {s s' : JobSession σ τ Q R J} {op : Op Q R} {r : Except Error Unit} :
      Reachable s0 s → applyOp s op = some (r, s') → Reachable s0 s'

/-- Reachability by slave-driven events only: `initialize` is the
master-role entry point (its master precondition is a `debug_assert!`,
so it is simply never called on a node acting as a slave). -/
inductive SlaveReachable {σ τ Q R J : Type} (s0 : JobSession σ τ Q R J) :
    JobSession σ τ Q R J → Prop where
  | refl : SlaveReachable s0 s0
  | step {s s' : JobSession σ τ Q R J} {op : Op Q R} {r : Except Error Unit} :
      SlaveReachable s0 s → applyOp s op = some (r, s') →
      (∀ nodes, op ≠ Op.init nodes) → SlaveReachable s0 s'

/-- The session after one successful step (unchanged on failure to step:
only used on steps known to succeed). -/
def stepOk {σ τ Q R J : Type} (s : JobSession σ τ Q R J) (op : Op Q R) :
    JobSession σ τ Q R J :=
  match applyOp s op with
  | some (_, s') => s'
  | none => s

/-- The `Result` a step returned, `none` on a panic. -/
def stepRes {σ τ Q R J : Type} (s : JobSession σ τ Q R J) (op : Op Q R) :
    Option (Except Error Unit) :=
  (applyOp s op).map Prod.fst

/-- `requests.len() + responses.len()`: the number of nodes still able to
contribute to the round. -/
def quorum {R : Type} (ad : ActiveJobSessionData R) : Nat :=
  ad.requests.card + ad.responses.length

/-- An executor whose response check never errors and never answers
`Ignore` (every executor of this repository is of this kind: none of
them ever produces `Ignore`). -/
def GoodCheck {σ Q R J : Type} (e : JobExecutor σ Q R J) : Prop :=
  ∀ st n r, ∃ a st', e.check_partial_response st n r = (Except.ok a, st') ∧
    a ≠ JobPartialResponseAction.Ignore

/-- A trivial executor that ignores every partial response. -/
def ignoreExecutor : JobExecutor Unit Unit Unit Unit :=
  { prepare_partial_request := fun _ _ _ => Except.ok ()
    process_partial_request := fun st _ => (Except.ok (JobPartialRequestAction.Respond ()), st)
    check_partial_response := fun st _ _ => (Except.ok JobPartialResponseAction.Ignore, st)
    compute_response := fun _ _ => Except.ok () }

/-- A trivial executor that accepts every partial response. -/
def acceptExecutor : JobExecutor Unit Unit Unit Unit :=
  { prepare_partial_request := fun _ _ _ => Except.ok ()
    process_partial_request := fun st _ => (Except.ok (JobPartialRequestAction.Respond ()), st)
    check_partial_response := fun st _ _ => (Except.ok JobPartialResponseAction.Accept, st)
    compute_response := fun _ _ => Except.ok () }

/-- A transport whose sends always succeed. -/
def unitTransport : JobTransport Unit Unit Unit :=
  { send_partial_request := fun st _ _ => (Except.ok (), st)
    send_partial_response := fun st _ _ => (Except.ok (), st) }

/-- Meta of a master session (node 1 is both self and master), threshold 0. -/
def metaM0 : SessionMeta :=
  { id := 0, master_node_id := 1, self_node_id := 1, threshold := 0 }

/-- Meta of a master session (node 1 is both self and master), threshold 1. -/
def metaM1 : SessionMeta :=
  { id := 0, master_node_id := 1, self_node_id := 1, threshold := 1 }

/-- Meta of a slave session (node 2, whose master is node 1), threshold 0. -/
def metaS0 : SessionMeta :=
  { id := 0, master_node_id := 1, self_node_id := 2, threshold := 0 }

/-- Fresh threshold-0 master session with the ignoring executor. -/
def sIg0 : JobSession Unit Unit Unit Unit Unit :=
  JobSession.new metaM0 ignoreExecutor () unitTransport ()

/-- Fresh threshold-0 master session with the accepting executor. -/
def sAcc0 : JobSession Unit Unit Unit Unit Unit :=
  JobSession.new metaM0 acceptExecutor () unitTransport ()

/-- Fresh threshold-1 master session with the accepting executor. -/
def sAccT1 : JobSession Unit Unit Unit Unit Unit :=
  JobSession.new metaM1 acceptExecutor () unitTransport ()

/-- Fresh threshold-0 slave session with the accepting executor. -/
def sSl0 : JobSession Unit Unit Unit Unit Unit :=
  JobSession.new metaS0 acceptExecutor () unitTransport ()

/-- The threshold-0 ignore-executor master session right after a successful
`initialize({2})`: `Active`, awaiting node 2's response. -/
def sIg1 : JobSession Unit Unit Unit Unit Unit :=
  stepOk sIg0 (Op.init {2})

/-- The slave session after answering the master's partial request:
`Finished` with no `active_data`. -/
def sSl1 : JobSession Unit Unit Unit Unit Unit :=
  stepOk sSl0 (Op.request 1 ())

deriving instance DecidableEq for Except

/-- The node-membership invariant of `ActiveJobSessionData`: response keys
are unrepeated and the three collections are pairwise disjoint. -/
def ADInv {R : Type} (ad : ActiveJobSessionData R) : Prop :=
  (mapKeys ad.responses).Nodup ∧
  (∀ n, n ∈ ad.requests → n ∉ ad.rejects) ∧
  (∀ n, n ∈ ad.requests → n ∉ mapKeys ad.responses) ∧
  (∀ n, n ∈ ad.rejects → n ∉ mapKeys ad.responses)

/-- A session whose active data (when present) satisfies `ADInv`. -/
def InvA {σ τ Q R J : Type} (s : JobSession σ τ Q R J) : Prop :=
  ∀ ad, s.data.active_data = some ad → ADInv ad

/-- The quorum invariant: once `active_data` exists the session has left
`Inactive`, and while it is `Active` or `Finished` the quorum
`requests.len() + responses.len()` is at least `threshold + 1`. -/
def InvB {σ τ Q R J : Type} (s : JobSession σ τ Q R J) : Prop :=
  ∀ ad, s.data.active_data = some ad →
    s.data.state ≠ JobSessionState.Inactive ∧
    ((s.data.state = JobSessionState.Active ∨ s.data.state = JobSessionState.Finished) →
      s.meta.threshold + 1 ≤ quorum ad)

/-- The master's data-presence invariant: on a master (`self == master`)
the `Active` and `Finished` states imply `active_data` is populated. -/
def InvC {σ τ Q R J : Type} (s : JobSession σ τ Q R J) : Prop :=
  s.meta.self_node_id = s.meta.master_node_id →
  (s.data.state = JobSessionState.Active ∨ s.data.state = JobSessionState.Finished) →
  s.data.active_data.isSome

/-! ### Association-list map lemmas -/

theorem sortNodes_eq_sort (s : Finset NodeId) : sortNodes s = s.sort (· ≤ ·) := by
  refine List.eq_of_perm_of_sorted ?_ ?_ (Finset.sort_sorted _ s)
  · refine (List.perm_ext_iff_of_nodup ((List.nodup_range _).filter _)
      (Finset.sort_nodup _ s)).2 ?_
    intro a
    simp only [sortNodes, List.mem_filter, List.mem_range, Finset.mem_sort, decide_eq_true_eq]
    constructor
    · rintro ⟨-, h⟩; exact h
    · intro h; exact ⟨Nat.lt_succ_of_le (Finset.le_sup (f := id) h), h⟩
  · exact List.Pairwise.filter _ (List.sorted_le_range _)

theorem mem_mapKeys {R : Type} (m : List (NodeId × R)) (j : NodeId) :
    j ∈ mapKeys m ↔ ∃ p ∈ m, p.1 = j := by
  simp [mapKeys]

theorem mapKeys_mapErase {R : Type} (m : List (NodeId × R)) (k : NodeId) :
    mapKeys (mapErase m k) = (mapKeys m).filter (fun j => j ≠ k) := by
  induction m with
  | nil => rfl
  | cons p m ih =>
    by_cases h : p.1 = k <;>
      simp [mapKeys, mapErase, List.filter_cons, h] at ih ⊢ <;>
      simpa [mapKeys, mapErase] using ih

theorem mem_mapKeys_mapErase {R : Type} (m : List (NodeId × R)) (k j : NodeId) :
    j ∈ mapKeys (mapErase m k) ↔ j ∈ mapKeys m ∧ j ≠ k := by
  simp [mapKeys_mapErase]

theorem nodup_mapKeys_mapErase {R : Type} (m : List (NodeId × R)) (k : NodeId)
    (h : (mapKeys m).Nodup) : (mapKeys (mapErase m k)).Nodup := by
  rw [mapKeys_mapErase]; exact h.filter _

theorem mapErase_of_not_mem {R : Type} (m : List (NodeId × R)) (k : NodeId)
    (h : k ∉ mapKeys m) : mapErase m k = m := by
  apply List.filter_eq_self.2
  intro p hp
  simp only [decide_eq_true_eq]
  intro hpk
  exact h ((mem_mapKeys m k).2 ⟨p, hp, hpk⟩)

theorem mapKeys_mapInsert {R : Type} (m : List (NodeId × R)) (k : NodeId) (v : R) :
    mapKeys (mapInsert m k v) = mapKeys (mapErase m k) ++ [k] := by
  simp [mapInsert, mapKeys]

theorem mem_mapKeys_mapInsert {R : Type} (m : List (NodeId × R)) (k j : NodeId) (v : R) :
    j ∈ mapKeys (mapInsert m k v) ↔ (j ∈ mapKeys m ∧ j ≠ k) ∨ j = k := by
  simp [mapKeys_mapInsert, mem_mapKeys_mapErase]

theorem nodup_mapKeys_mapInsert {R : Type} (m : List (NodeId × R)) (k : NodeId) (v : R)
    (h : (mapKeys m).Nodup) : (mapKeys (mapInsert m k v)).Nodup := by
  rw [mapKeys_mapInsert]
  refine List.Nodup.append (nodup_mapKeys_mapErase m k h) (List.nodup_singleton k) ?_
  intro j hj hj1
  rw [List.mem_singleton] at hj1
  exact ((mem_mapKeys_mapErase m k j).1 hj).2 hj1

theorem length_mapInsert_of_not_mem {R : Type} (m : List (NodeId × R)) (k : NodeId) (v : R)
    (h : k ∉ mapKeys m) : (mapInsert m k v).length = m.length + 1 := by
  simp [mapInsert, mapErase_of_not_mem m k h]

/-! ### The session invariants -/




/-! ### Step lemmas for `on_partial_response` -/

theorem on_partial_response_const {σ τ Q R J : Type} {s : JobSession σ τ Q R J}
    {node : NodeId} {r : R} {res : Except Error Unit} {s' : JobSession σ τ Q R J}
    (h : s.on_partial_response node r = some (res, s')) :
    s'.meta = s.meta ∧ s'.executor = s.executor ∧ s'.transport = s.transport := by
  unfold JobSession.on_partial_response at h
  repeat' split at h
  all_goals try exact Option.noConfusion h
  all_goals simp only [Option.some.injEq, Prod.mk.injEq] at h
  all_goals obtain ⟨-, rfl⟩ := h
  all_goals exact ⟨rfl, rfl, rfl⟩

theorem ADInv.erase {R : Type} {ad : ActiveJobSessionData R} (h : ADInv ad) (node : NodeId) :
    ADInv ⟨ad.requests.erase node, ad.rejects, ad.responses⟩ := by
  obtain ⟨h1, h2, h3, h4⟩ := h
  exact ⟨h1, fun n hn => h2 n (Finset.mem_of_mem_erase hn),
         fun n hn => h3 n (Finset.mem_of_mem_erase hn), h4⟩

theorem ADInv.toReject {R : Type} {ad : ActiveJobSessionData R} (h : ADInv ad) {node : NodeId}
    (hn : node ∈ ad.requests) :
    ADInv ⟨ad.requests.erase node, insert node ad.rejects, ad.responses⟩ := by
  obtain ⟨h1, h2, h3, h4⟩ := h
  refine ⟨h1, ?_, fun n hne => h3 n (Finset.mem_of_mem_erase hne), ?_⟩
  · intro n hne
    obtain ⟨hne1, hne2⟩ := Finset.mem_erase.1 hne
    intro hins
    rcases Finset.mem_insert.1 hins with h | h
    · exact hne1 h
    · exact h2 n hne2 h
  · intro n hins
    rcases Finset.mem_insert.1 hins with h | h
    · exact h ▸ h3 node hn
    · exact h4 n h

theorem ADInv.toAccept {R : Type} {ad : ActiveJobSessionData R} (h : ADInv ad) {node : NodeId}
    (hn : node ∈ ad.requests) (v : R) :
    ADInv ⟨ad.requests.erase node, ad.rejects, mapInsert ad.responses node v⟩ := by
  obtain ⟨h1, h2, h3, h4⟩ := h
  refine ⟨nodup_mapKeys_mapInsert _ _ _ h1, fun n hne => h2 n (Finset.mem_of_mem_erase hne),
          ?_, ?_⟩
  · intro n hne
    obtain ⟨hne1, hne2⟩ := Finset.mem_erase.1 hne
    rw [mem_mapKeys_mapInsert]
    rintro (⟨hk, -⟩ | hk)
    · exact h3 n hne2 hk
    · exact hne1 hk
  · intro n hrj
    rw [mem_mapKeys_mapInsert]
    rintro (⟨hk, -⟩ | hk)
    · exact h4 n hrj hk
    · exact h2 node hn (hk ▸ hrj)

theorem ADInv.nodeError {R : Type} {ad : ActiveJobSessionData R} (h : ADInv ad)
    (node : NodeId) :
    ADInv ⟨ad.requests.erase node, insert node ad.rejects,
           if node ∈ ad.requests then ad.responses else mapErase ad.responses node⟩ := by
  by_cases hn : node ∈ ad.requests
  · rw [if_pos hn]
    exact h.toReject hn
  · rw [if_neg hn]
    obtain ⟨h1, h2, h3, h4⟩ := h
    refine ⟨nodup_mapKeys_mapErase _ _ h1, ?_, ?_, ?_⟩
    · intro n hne
      obtain ⟨hne1, hne2⟩ := Finset.mem_erase.1 hne
      intro hins
      rcases Finset.mem_insert.1 hins with hh | hh
      · exact hne1 hh
      · exact h2 n hne2 hh
    · intro n hne
      obtain ⟨-, hne2⟩ := Finset.mem_erase.1 hne
      rw [mem_mapKeys_mapErase]
      rintro ⟨hk, -⟩
      exact h3 n hne2 hk
    · intro n hins
      rw [mem_mapKeys_mapErase]
      rintro ⟨hk, hkn⟩
      rcases Finset.mem_insert.1 hins with hh | hh
      · exact hkn hh
      · exact h4 n hh hk

/-! ### Step lemmas for `on_partial_response` -/

theorem on_partial_response_invA {σ τ Q R J : Type} {s : JobSession σ τ Q R J}
    {node : NodeId} {r : R} {res : Except Error Unit} {s' : JobSession σ τ Q R J}
    (h : s.on_partial_response node r = some (res, s')) (hA : InvA s) : InvA s' := by
  unfold JobSession.on_partial_response at h
  split at h
  · simp only [Option.some.injEq, Prod.mk.injEq] at h
    obtain ⟨-, rfl⟩ := h; exact hA
  split at h
  · simp only [Option.some.injEq, Prod.mk.injEq] at h
    obtain ⟨-, rfl⟩ := h; exact hA
  split at h
  next => exact Option.noConfusion h
  next ad hsome =>
  have hAD := hA ad hsome
  split at h
  · simp only [Option.some.injEq, Prod.mk.injEq] at h
    obtain ⟨-, rfl⟩ := h; exact hA
  next hreq =>
  rw [not_not] at hreq
  split at h
  case h_1 =>
    simp only [Option.some.injEq, Prod.mk.injEq] at h
    obtain ⟨-, rfl⟩ := h
    intro ad' had'
    cases Option.some.inj had'
    exact hAD.erase node
  case h_2 =>
    simp only [Option.some.injEq, Prod.mk.injEq] at h
    obtain ⟨-, rfl⟩ := h
    intro ad' had'
    cases Option.some.inj had'
    exact hAD.erase node
  case h_3 =>
    split at h <;>
      (simp only [Option.some.injEq, Prod.mk.injEq] at h
       obtain ⟨-, rfl⟩ := h
       intro ad' had'
       cases Option.some.inj had'
       exact hAD.toReject hreq)
  case h_4 =>
    split at h <;>
      (simp only [Option.some.injEq, Prod.mk.injEq] at h
       obtain ⟨-, rfl⟩ := h
       intro ad' had'
       cases Option.some.inj had'
       exact hAD.toAccept hreq r)


theorem on_partial_response_invB {σ τ Q R J : Type} {s : JobSession σ τ Q R J}
    {node : NodeId} {r : R} {res : Except Error Unit} {s' : JobSession σ τ Q R J}
    (h : s.on_partial_response node r = some (res, s'))
    (hgood : GoodCheck s.executor) (hA : InvA s) (hB : InvB s) : InvB s' := by
  unfold JobSession.on_partial_response at h
  split at h
  · simp only [Option.some.injEq, Prod.mk.injEq] at h
    obtain ⟨-, rfl⟩ := h; exact hB
  split at h
  next hstate =>
    simp only [Option.some.injEq, Prod.mk.injEq] at h
    obtain ⟨-, rfl⟩ := h; exact hB
  next hstate =>
  have hAF : s.data.state = JobSessionState.Active ∨ s.data.state = JobSessionState.Finished :=
    or_iff_not_imp_left.mpr fun ha => not_not.mp fun hf => hstate ⟨ha, hf⟩
  have hnotInactive : s.data.state ≠ JobSessionState.Inactive := by
    rcases hAF with hh | hh <;> rw [hh] <;> decide
  split at h
  next => exact Option.noConfusion h
  next ad hsome =>
  have hAD := hA ad hsome
  have hq : s.meta.threshold + 1 ≤ quorum ad := (hB ad hsome).2 hAF
  split at h
  · simp only [Option.some.injEq, Prod.mk.injEq] at h
    obtain ⟨-, rfl⟩ := h; exact hB
  next hreq =>
  rw [not_not] at hreq
  split at h
  case h_1 e heq =>
    obtain ⟨a, st', hchk, -⟩ := hgood s.exState node r
    rw [hchk] at heq
    exact Except.noConfusion heq
  case h_2 heq =>
    obtain ⟨a, st', hchk, hne⟩ := hgood s.exState node r
    rw [hchk] at heq
    exact absurd (Except.ok.inj heq) hne
  case h_3 =>
    split at h
    next hcond =>
      simp only [Option.some.injEq, Prod.mk.injEq] at h
      obtain ⟨-, rfl⟩ := h
      intro ad' had'
      cases Option.some.inj had'
      exact ⟨hnotInactive, fun _ => hcond⟩
    next hcond =>
      simp only [Option.some.injEq, Prod.mk.injEq] at h
      obtain ⟨-, rfl⟩ := h
      intro ad' had'
      cases Option.some.inj had'
      refine ⟨fun hh => JobSessionState.noConfusion hh, ?_⟩
      rintro (hh | hh) <;> exact JobSessionState.noConfusion hh
  case h_4 =>
    have hnode : node ∉ mapKeys ad.responses := hAD.2.2.1 node hreq
    have hlen : (mapInsert ad.responses node r).length = ad.responses.length + 1 :=
      length_mapInsert_of_not_mem _ _ _ hnode
    have hcard : (ad.requests.erase node).card = ad.requests.card - 1 :=
      Finset.card_erase_of_mem hreq
    have hpos : 0 < ad.requests.card := Finset.card_pos.mpr ⟨node, hreq⟩
    have hquorum : s.meta.threshold + 1 ≤
        (ad.requests.erase node).card + (mapInsert ad.responses node r).length := by
      have := hq
      unfold quorum at this
      omega
    split at h <;>
      (simp only [Option.some.injEq, Prod.mk.injEq] at h
       obtain ⟨-, rfl⟩ := h
       intro ad' had'
       cases Option.some.inj had')
    · exact ⟨hnotInactive, fun _ => hquorum⟩
    · exact ⟨fun hh => JobSessionState.noConfusion hh, fun _ => hquorum⟩

theorem on_partial_response_ok_state {σ τ Q R J : Type} {s : JobSession σ τ Q R J}
    {node : NodeId} {r : R} {s' : JobSession σ τ Q R J}
    (h : s.on_partial_response node r = some (Except.ok (), s')) :
    s'.data.state = JobSessionState.Active ∨ s'.data.state = JobSessionState.Finished := by
  unfold JobSession.on_partial_response at h
  split at h
  · simp only [Option.some.injEq, Prod.mk.injEq] at h
    exact absurd h.1 (by intro hh; exact Except.noConfusion hh)
  split at h
  next hstate =>
    simp only [Option.some.injEq, Prod.mk.injEq] at h
    exact absurd h.1 (by intro hh; exact Except.noConfusion hh)
  next hstate =>
  have hAF : s.data.state = JobSessionState.Active ∨ s.data.state = JobSessionState.Finished :=
    or_iff_not_imp_left.mpr fun ha => not_not.mp fun hf => hstate ⟨ha, hf⟩
  split at h
  next => exact Option.noConfusion h
  next ad hsome =>
  split at h
  · simp only [Option.some.injEq, Prod.mk.injEq] at h
    exact absurd h.1 (by intro hh; exact Except.noConfusion hh)
  next hreq =>
  split at h
  case h_1 e heq =>
    simp only [Option.some.injEq, Prod.mk.injEq] at h
    exact absurd h.1 (by intro hh; exact Except.noConfusion hh)
  case h_2 heq =>
    simp only [Option.some.injEq, Prod.mk.injEq] at h
    obtain ⟨-, rfl⟩ := h
    exact hAF
  case h_3 =>
    split at h <;> simp only [Option.some.injEq, Prod.mk.injEq] at h
    · obtain ⟨-, rfl⟩ := h
      exact hAF
    · exact absurd h.1 (by intro hh; exact Except.noConfusion hh)
  case h_4 =>
    split at h <;> simp only [Option.some.injEq, Prod.mk.injEq] at h
    · obtain ⟨-, rfl⟩ := h
      exact hAF
    · obtain ⟨-, rfl⟩ := h
      exact Or.inr rfl

theorem on_partial_response_invC {σ τ Q R J : Type} {s : JobSession σ τ Q R J}
    {node : NodeId} {r : R} {res : Except Error Unit} {s' : JobSession σ τ Q R J}
    (h : s.on_partial_response node r = some (res, s')) (hC : InvC s) : InvC s' := by
  unfold JobSession.on_partial_response at h
  repeat' split at h
  all_goals try exact Option.noConfusion h
  all_goals simp only [Option.some.injEq, Prod.mk.injEq] at h
  all_goals obtain ⟨-, rfl⟩ := h
  all_goals first
    | exact hC
    | exact fun _ _ => rfl

/-! ### Step lemmas for the remaining operations -/

theorem on_node_error_const {σ τ Q R J : Type} {s : JobSession σ τ Q R J}
    {node : NodeId} {res : Except Error Unit} {s' : JobSession σ τ Q R J}
    (h : s.on_node_error node = (res, s')) :
    s'.meta = s.meta ∧ s'.executor = s.executor ∧ s'.transport = s.transport := by
  unfold JobSession.on_node_error at h
  repeat' split at h
  all_goals simp only [Prod.mk.injEq] at h
  all_goals obtain ⟨-, rfl⟩ := h
  all_goals exact ⟨rfl, rfl, rfl⟩

theorem on_node_error_invA {σ τ Q R J : Type} {s : JobSession σ τ Q R J}
    {node : NodeId} {res : Except Error Unit} {s' : JobSession σ τ Q R J}
    (h : s.on_node_error node = (res, s')) (hA : InvA s) : InvA s' := by
  unfold JobSession.on_node_error at h
  split at h
  · split at h <;> (simp only [Prod.mk.injEq] at h; obtain ⟨-, rfl⟩ := h; exact hA)
  split at h
  next => simp only [Prod.mk.injEq] at h; obtain ⟨-, rfl⟩ := h; exact hA
  next ad hsome =>
  have hAD := hA ad hsome
  split at h
  · simp only [Prod.mk.injEq] at h; obtain ⟨-, rfl⟩ := h; exact hA
  split at h
  · split at h
    next hmem =>
      split at h <;>
        (simp only [Prod.mk.injEq] at h
         obtain ⟨-, rfl⟩ := h
         intro ad' had'
         cases Option.some.inj had'
         have hh := hAD.nodeError node
         rwa [if_pos hmem] at hh)
    next hmem =>
      split at h <;>
        (simp only [Prod.mk.injEq] at h
         obtain ⟨-, rfl⟩ := h
         intro ad' had'
         cases Option.some.inj had'
         have hh := hAD.nodeError node
         rwa [if_neg hmem] at hh)
  · simp only [Prod.mk.injEq] at h; obtain ⟨-, rfl⟩ := h; exact hA

theorem on_node_error_invB {σ τ Q R J : Type} {s : JobSession σ τ Q R J}
    {node : NodeId} {res : Except Error Unit} {s' : JobSession σ τ Q R J}
    (h : s.on_node_error node = (res, s')) (hB : InvB s) : InvB s' := by
  unfold JobSession.on_node_error at h
  split at h
  · split at h
    · simp only [Prod.mk.injEq] at h; obtain ⟨-, rfl⟩ := h; exact hB
    · simp only [Prod.mk.injEq] at h
      obtain ⟨-, rfl⟩ := h
      intro ad' had'
      refine ⟨fun hh => JobSessionState.noConfusion hh, ?_⟩
      rintro (hh | hh) <;> exact JobSessionState.noConfusion hh
  split at h
  next => simp only [Prod.mk.injEq] at h; obtain ⟨-, rfl⟩ := h; exact hB
  next ad hsome =>
  split at h
  · simp only [Prod.mk.injEq] at h; obtain ⟨-, rfl⟩ := h; exact hB
  split at h
  · split at h <;>
      (split at h
       case isTrue hcond =>
         simp only [Prod.mk.injEq] at h
         obtain ⟨-, rfl⟩ := h
         intro ad' had'
         cases Option.some.inj had'
         refine ⟨?_, fun _ => hcond⟩
         split
         · exact fun hh => JobSessionState.noConfusion hh
         · exact (hB ad hsome).1
       case isFalse hcond =>
         simp only [Prod.mk.injEq] at h
         obtain ⟨-, rfl⟩ := h
         intro ad' had'
         refine ⟨fun hh => JobSessionState.noConfusion hh, ?_⟩
         rintro (hh | hh) <;> exact JobSessionState.noConfusion hh)
  · simp only [Prod.mk.injEq] at h; obtain ⟨-, rfl⟩ := h; exact hB

theorem on_node_error_invC {σ τ Q R J : Type} {s : JobSession σ τ Q R J}
    {node : NodeId} {res : Except Error Unit} {s' : JobSession σ τ Q R J}
    (h : s.on_node_error node = (res, s')) (hC : InvC s) : InvC s' := by
  unfold JobSession.on_node_error at h
  repeat' split at h
  all_goals simp only [Prod.mk.injEq] at h
  all_goals obtain ⟨-, rfl⟩ := h
  all_goals first
    | exact hC
    | exact fun _ _ => rfl
    | (intro hm hAF
       rcases hAF with hh | hh <;> exact JobSessionState.noConfusion hh)

theorem on_partial_request_const {σ τ Q R J : Type} {s : JobSession σ τ Q R J}
    {node : NodeId} {q : Q} {res : Except Error Unit} {s' : JobSession σ τ Q R J}
    (h : s.on_partial_request node q = (res, s')) :
    s'.meta = s.meta ∧ s'.executor = s.executor ∧ s'.transport = s.transport := by
  unfold JobSession.on_partial_request at h
  repeat' split at h
  all_goals simp only [Prod.mk.injEq] at h
  all_goals obtain ⟨-, rfl⟩ := h
  all_goals exact ⟨rfl, rfl, rfl⟩

theorem on_partial_request_active_data {σ τ Q R J : Type} {s : JobSession σ τ Q R J}
    {node : NodeId} {q : Q} {res : Except Error Unit} {s' : JobSession σ τ Q R J}
    (h : s.on_partial_request node q = (res, s')) :
    s'.data.active_data = s.data.active_data := by
  unfold JobSession.on_partial_request at h
  repeat' split at h
  all_goals simp only [Prod.mk.injEq] at h
  all_goals obtain ⟨-, rfl⟩ := h
  all_goals rfl

theorem on_partial_request_invA {σ τ Q R J : Type} {s : JobSession σ τ Q R J}
    {node : NodeId} {q : Q} {res : Except Error Unit} {s' : JobSession σ τ Q R J}
    (h : s.on_partial_request node q = (res, s')) (hA : InvA s) : InvA s' := by
  intro ad had
  exact hA ad ((on_partial_request_active_data h) ▸ had)

theorem on_partial_request_invB {σ τ Q R J : Type} {s : JobSession σ τ Q R J}
    {node : NodeId} {q : Q} {res : Except Error Unit} {s' : JobSession σ τ Q R J}
    (h : s.on_partial_request node q = (res, s')) (hB : InvB s) : InvB s' := by
  unfold JobSession.on_partial_request at h
  split at h
  · simp only [Prod.mk.injEq] at h; obtain ⟨-, rfl⟩ := h; exact hB
  split at h
  · simp only [Prod.mk.injEq] at h; obtain ⟨-, rfl⟩ := h; exact hB
  split at h
  next hstate =>
    simp only [Prod.mk.injEq] at h; obtain ⟨-, rfl⟩ := h; exact hB
  next hstate =>
  have hIF : s.data.state = JobSessionState.Inactive ∨ s.data.state = JobSessionState.Finished :=
    or_iff_not_imp_left.mpr fun hi => not_not.mp fun hf => hstate ⟨hi, hf⟩
  split at h
  · simp only [Prod.mk.injEq] at h; obtain ⟨-, rfl⟩ := h; exact hB
  · simp only [Prod.mk.injEq] at h
    obtain ⟨-, rfl⟩ := h
    intro ad' had'
    obtain ⟨h1, h2⟩ := hB ad' had'
    have hF : s.data.state = JobSessionState.Finished := (hIF.resolve_left h1)
    exact ⟨fun hh => JobSessionState.noConfusion hh, fun _ => h2 (Or.inr hF)⟩
  · simp only [Prod.mk.injEq] at h
    obtain ⟨-, rfl⟩ := h
    intro ad' had'
    refine ⟨fun hh => JobSessionState.noConfusion hh, ?_⟩
    rintro (hh | hh) <;> exact JobSessionState.noConfusion hh

theorem on_partial_request_invC {σ τ Q R J : Type} {s : JobSession σ τ Q R J}
    {node : NodeId} {q : Q} {res : Except Error Unit} {s' : JobSession σ τ Q R J}
    (h : s.on_partial_request node q = (res, s')) (hC : InvC s) : InvC s' := by
  unfold JobSession.on_partial_request at h
  split at h
  · simp only [Prod.mk.injEq] at h; obtain ⟨-, rfl⟩ := h; exact hC
  split at h
  · simp only [Prod.mk.injEq] at h; obtain ⟨-, rfl⟩ := h; exact hC
  next hrole =>
  split at h
  · simp only [Prod.mk.injEq] at h; obtain ⟨-, rfl⟩ := h; exact hC
  repeat' split at h
  all_goals simp only [Prod.mk.injEq] at h
  all_goals obtain ⟨-, rfl⟩ := h
  all_goals exact fun hm => absurd hm hrole

theorem on_session_timeout_const {σ τ Q R J : Type} {s : JobSession σ τ Q R J}
    {res : Except Error Unit} {s' : JobSession σ τ Q R J}
    (h : s.on_session_timeout = (res, s')) :
    s'.meta = s.meta ∧ s'.executor = s.executor ∧ s'.transport = s.transport := by
  unfold JobSession.on_session_timeout at h
  split at h
  all_goals simp only [Prod.mk.injEq] at h
  all_goals obtain ⟨-, rfl⟩ := h
  all_goals exact ⟨rfl, rfl, rfl⟩

theorem on_session_timeout_invA {σ τ Q R J : Type} {s : JobSession σ τ Q R J}
    {res : Except Error Unit} {s' : JobSession σ τ Q R J}
    (h : s.on_session_timeout = (res, s')) (hA : InvA s) : InvA s' := by
  unfold JobSession.on_session_timeout at h
  split at h
  all_goals simp only [Prod.mk.injEq] at h
  all_goals obtain ⟨-, rfl⟩ := h
  all_goals exact hA

theorem on_session_timeout_invB {σ τ Q R J : Type} {s : JobSession σ τ Q R J}
    {res : Except Error Unit} {s' : JobSession σ τ Q R J}
    (h : s.on_session_timeout = (res, s')) (hB : InvB s) : InvB s' := by
  unfold JobSession.on_session_timeout at h
  split at h
  · simp only [Prod.mk.injEq] at h; obtain ⟨-, rfl⟩ := h; exact hB
  · simp only [Prod.mk.injEq] at h
    obtain ⟨-, rfl⟩ := h
    intro ad' had'
    refine ⟨fun hh => JobSessionState.noConfusion hh, ?_⟩
    rintro (hh | hh) <;> exact JobSessionState.noConfusion hh

theorem on_session_timeout_invC {σ τ Q R J : Type} {s : JobSession σ τ Q R J}
    {res : Except Error Unit} {s' : JobSession σ τ Q R J}
    (h : s.on_session_timeout = (res, s')) (hC : InvC s) : InvC s' := by
  unfold JobSession.on_session_timeout at h
  split at h
  · simp only [Prod.mk.injEq] at h; obtain ⟨-, rfl⟩ := h; exact hC
  · simp only [Prod.mk.injEq] at h
    obtain ⟨-, rfl⟩ := h
    intro hm hAF
    rcases hAF with hh | hh <;> exact JobSessionState.noConfusion hh

/-! ### Step lemmas for `initializeSession` -/

theorem ADInv_fresh {R : Type} (nodes : Finset NodeId) :
    ADInv (R := R) ⟨nodes, ∅, []⟩ :=
  ⟨List.nodup_nil, fun n _ => Finset.not_mem_empty n,
   fun n _ => List.not_mem_nil n, fun n hn => absurd hn (Finset.not_mem_empty n)⟩

theorem initializeSession_const {σ τ Q R J : Type} {s : JobSession σ τ Q R J}
    {nodes : Finset NodeId} {res : Except Error Unit} {s' : JobSession σ τ Q R J}
    (h : s.initializeSession nodes = some (res, s')) :
    s'.meta = s.meta ∧ s'.executor = s.executor ∧ s'.transport = s.transport := by
  unfold JobSession.initializeSession at h
  repeat' split at h
  all_goals first
    | (have hc := on_partial_response_const h; exact hc)
    | (simp only [Option.some.injEq, Prod.mk.injEq] at h
       obtain ⟨-, rfl⟩ := h
       exact ⟨rfl, rfl, rfl⟩)

theorem initializeSession_invA {σ τ Q R J : Type} {s : JobSession σ τ Q R J}
    {nodes : Finset NodeId} {res : Except Error Unit} {s' : JobSession σ τ Q R J}
    (h : s.initializeSession nodes = some (res, s')) (hA : InvA s) : InvA s' := by
  unfold JobSession.initializeSession at h
  repeat' split at h
  all_goals first
    | (refine on_partial_response_invA h ?_
       intro ad had
       cases Option.some.inj had
       exact ADInv_fresh nodes)
    | (simp only [Option.some.injEq, Prod.mk.injEq] at h
       obtain ⟨-, rfl⟩ := h
       first
         | exact hA
         | (intro ad had
            cases Option.some.inj had
            exact ADInv_fresh nodes))

theorem initializeSession_invB {σ τ Q R J : Type} {s : JobSession σ τ Q R J}
    {nodes : Finset NodeId} {res : Except Error Unit} {s' : JobSession σ τ Q R J}
    (h : s.initializeSession nodes = some (res, s'))
    (hgood : GoodCheck s.executor) (hB : InvB s) : InvB s' := by
  unfold JobSession.initializeSession at h
  split at h
  · simp only [Option.some.injEq, Prod.mk.injEq] at h
    obtain ⟨-, rfl⟩ := h; exact hB
  next hguard =>
  have hcard : s.meta.threshold + 1 ≤ nodes.card := Nat.not_lt.mp hguard
  split at h
  · simp only [Option.some.injEq, Prod.mk.injEq] at h
    obtain ⟨-, rfl⟩ := h; exact hB
  split at h
  case h_1 =>
    simp only [Option.some.injEq, Prod.mk.injEq] at h
    obtain ⟨-, rfl⟩ := h; exact hB
  case h_2 =>
  have hfresh : ∀ exState1 trState1, InvB (σ := σ) (τ := τ) (Q := Q) (J := J)
      { s with trState := trState1, exState := exState1,
               data := ⟨JobSessionState.Active, some ⟨nodes, ∅, []⟩⟩ } := by
    intro exState1 trState1 ad had
    cases Option.some.inj had
    refine ⟨fun hh => JobSessionState.noConfusion hh, fun _ => ?_⟩
    show s.meta.threshold + 1 ≤ quorum ⟨nodes, ∅, ([] : List (NodeId × R))⟩
    unfold quorum
    simpa using hcard
  split at h
  · split at h
    · simp only [Option.some.injEq, Prod.mk.injEq] at h
      obtain ⟨-, rfl⟩ := h; exact hB
    · split at h
      · simp only [Option.some.injEq, Prod.mk.injEq] at h
        obtain ⟨-, rfl⟩ := h; exact hB
      · exact on_partial_response_invB h hgood
          (fun ad had => by cases Option.some.inj had; exact ADInv_fresh nodes)
          (hfresh _ _)
      · exact on_partial_response_invB h hgood
          (fun ad had => by cases Option.some.inj had; exact ADInv_fresh nodes)
          (hfresh _ _)
  · simp only [Option.some.injEq, Prod.mk.injEq] at h
    obtain ⟨-, rfl⟩ := h
    exact hfresh _ _

theorem initializeSession_invC {σ τ Q R J : Type} {s : JobSession σ τ Q R J}
    {nodes : Finset NodeId} {res : Except Error Unit} {s' : JobSession σ τ Q R J}
    (h : s.initializeSession nodes = some (res, s')) (hC : InvC s) : InvC s' := by
  unfold JobSession.initializeSession at h
  repeat' split at h
  all_goals first
    | exact on_partial_response_invC h (fun _ _ => rfl)
    | (simp only [Option.some.injEq, Prod.mk.injEq] at h
       obtain ⟨-, rfl⟩ := h
       first
         | exact hC
         | exact fun _ _ => rfl)

theorem initializeSession_ok_state {σ τ Q R J : Type} {s : JobSession σ τ Q R J}
    {nodes : Finset NodeId} {s' : JobSession σ τ Q R J}
    (h : s.initializeSession nodes = some (Except.ok (), s')) :
    s'.data.state = JobSessionState.Active ∨ s'.data.state = JobSessionState.Finished := by
  unfold JobSession.initializeSession at h
  repeat' split at h
  all_goals first
    | exact on_partial_response_ok_state h
    | (simp only [Option.some.injEq, Prod.mk.injEq] at h
       first
         | exact absurd h.1 (fun hh => Except.noConfusion hh)
         | (obtain ⟨-, rfl⟩ := h
            exact Or.inl rfl))

/-! ### Lemmas on whole steps and reachability -/

theorem applyOp_const {σ τ Q R J : Type} {s : JobSession σ τ Q R J} {op : Op Q R}
    {r : Except Error Unit} {s' : JobSession σ τ Q R J}
    (h : applyOp s op = some (r, s')) :
    s'.meta = s.meta ∧ s'.executor = s.executor ∧ s'.transport = s.transport := by
  cases op <;> simp only [applyOp] at h
  · have hc := initializeSession_const h; exact hc
  · have hc := on_partial_request_const (Option.some.inj h); exact hc
  · have hc := on_partial_response_const h; exact hc
  · have hc := on_node_error_const (Option.some.inj h); exact hc
  · have hc := on_session_timeout_const (Option.some.inj h); exact hc

theorem applyOp_invA {σ τ Q R J : Type} {s : JobSession σ τ Q R J} {op : Op Q R}
    {r : Except Error Unit} {s' : JobSession σ τ Q R J}
    (h : applyOp s op = some (r, s')) (hA : InvA s) : InvA s' := by
  cases op <;> simp only [applyOp] at h
  · exact initializeSession_invA h hA
  · exact on_partial_request_invA (Option.some.inj h) hA
  · exact on_partial_response_invA h hA
  · exact on_node_error_invA (Option.some.inj h) hA
  · exact on_session_timeout_invA (Option.some.inj h) hA

theorem applyOp_invB {σ τ Q R J : Type} {s : JobSession σ τ Q R J} {op : Op Q R}
    {r : Except Error Unit} {s' : JobSession σ τ Q R J}
    (h : applyOp s op = some (r, s')) (hgood : GoodCheck s.executor)
    (hA : InvA s) (hB : InvB s) : InvB s' := by
  cases op <;> simp only [applyOp] at h
  · exact initializeSession_invB h hgood hB
  · exact on_partial_request_invB (Option.some.inj h) hB
  · exact on_partial_response_invB h hgood hA hB
  · exact on_node_error_invB (Option.some.inj h) hB
  · exact on_session_timeout_invB (Option.some.inj h) hB

theorem applyOp_invC {σ τ Q R J : Type} {s : JobSession σ τ Q R J} {op : Op Q R}
    {r : Except Error Unit} {s' : JobSession σ τ Q R J}
    (h : applyOp s op = some (r, s')) (hC : InvC s) : InvC s' := by
  cases op <;> simp only [applyOp] at h
  · exact initializeSession_invC h hC
  · exact on_partial_request_invC (Option.some.inj h) hC
  · exact on_partial_response_invC h hC
  · exact on_node_error_invC (Option.some.inj h) hC
  · exact on_session_timeout_invC (Option.some.inj h) hC

theorem reachable_const {σ τ Q R J : Type} {s0 s : JobSession σ τ Q R J}
    (h : Reachable s0 s) :
    s.meta = s0.meta ∧ s.executor = s0.executor ∧ s.transport = s0.transport := by
  induction h with
  | refl => exact ⟨rfl, rfl, rfl⟩
  | step _ hstep ih =>
    have hc := applyOp_const hstep
    exact ⟨hc.1.trans ih.1, hc.2.1.trans ih.2.1, hc.2.2.trans ih.2.2⟩

theorem reachable_invA {σ τ Q R J : Type} {s0 s : JobSession σ τ Q R J}
    (h : Reachable s0 s) (hA : InvA s0) : InvA s := by
  induction h with
  | refl => exact hA
  | step _ hstep ih => exact applyOp_invA hstep ih

theorem reachable_invB {σ τ Q R J : Type} {s0 s : JobSession σ τ Q R J}
    (h : Reachable s0 s) (hgood : GoodCheck s0.executor)
    (hA : InvA s0) (hB : InvB s0) : InvB s := by
  induction h with
  | refl => exact hB
  | step hr hstep ih =>
    have hexec := (reachable_const hr).2.1
    exact applyOp_invB hstep (hexec ▸ hgood) (reachable_invA hr hA) ih

theorem reachable_invC {σ τ Q R J : Type} {s0 s : JobSession σ τ Q R J}
    (h : Reachable s0 s) (hC : InvC s0) : InvC s := by
  induction h with
  | refl => exact hC
  | step _ hstep ih => exact applyOp_invC hstep ih

/-- A step that is not `initialize` never creates `active_data`. -/
theorem applyOp_active_none {σ τ Q R J : Type} {s : JobSession σ τ Q R J} {op : Op Q R}
    {r : Except Error Unit} {s' : JobSession σ τ Q R J}
    (h : applyOp s op = some (r, s')) (hnone : s.data.active_data = none)
    (hni : ∀ nodes, op ≠ Op.init nodes) : s'.data.active_data = none := by
  cases op
  case init nodes => exact absurd rfl (hni nodes)
  case request node q =>
    simp only [applyOp] at h
    exact (on_partial_request_active_data (Option.some.inj h)).trans hnone
  case response node r' =>
    simp only [applyOp] at h
    unfold JobSession.on_partial_response at h
    split at h
    · simp only [Option.some.injEq, Prod.mk.injEq] at h
      obtain ⟨-, rfl⟩ := h; exact hnone
    split at h
    · simp only [Option.some.injEq, Prod.mk.injEq] at h
      obtain ⟨-, rfl⟩ := h; exact hnone
    rw [hnone] at h
    exact Option.noConfusion h
  case nodeError node =>
    simp only [applyOp] at h
    replace h := Option.some.inj h
    unfold JobSession.on_node_error at h
    split at h
    · split at h <;>
        (simp only [Prod.mk.injEq] at h; obtain ⟨-, rfl⟩ := h; exact hnone)
    · rw [hnone] at h
      simp only [Prod.mk.injEq] at h
      obtain ⟨-, rfl⟩ := h
      exact hnone
  case timeout =>
    simp only [applyOp] at h
    replace h := Option.some.inj h
    unfold JobSession.on_session_timeout at h
    split at h <;>
      (simp only [Prod.mk.injEq] at h; obtain ⟨-, rfl⟩ := h; exact hnone)

theorem slaveReachable_active_none {σ τ Q R J : Type} {s0 s : JobSession σ τ Q R J}
    (h : SlaveReachable s0 s) (hnone : s0.data.active_data = none) :
    s.data.active_data = none := by
  induction h with
  | refl => exact hnone
  | step _ hstep hni ih => exact applyOp_active_none hstep ih hni

theorem reachable_stepOk {σ τ Q R J : Type} {s0 s : JobSession σ τ Q R J}
    (h : Reachable s0 s) (op : Op Q R)
    (hres : (applyOp s op).isSome) : Reachable s0 (stepOk s op) := by
  match happ : applyOp s op with
  | none => rw [happ] at hres; exact Bool.noConfusion hres
  | some (r, s1) =>
    have hstep : stepOk s op = s1 := by unfold stepOk; rw [happ]
    rw [hstep]
    exact Reachable.step h happ

theorem slaveReachable_stepOk {σ τ Q R J : Type} {s0 s : JobSession σ τ Q R J}
    (h : SlaveReachable s0 s) (op : Op Q R)
    (hres : (applyOp s op).isSome) (hni : ∀ nodes, op ≠ Op.init nodes) :
    SlaveReachable s0 (stepOk s op) := by
  match happ : applyOp s op with
  | none => rw [happ] at hres; exact Bool.noConfusion hres
  | some (r, s1) =>
    have hstep : stepOk s op = s1 := by unfold stepOk; rw [happ]
    rw [hstep]
    exact SlaveReachable.step h happ hni

/-! ### The claims -/

/-- C7: for every session in any role, `on_session_timeout` is a no-op
returning `Ok` when the state is already `Finished` or `Failed`, otherwise
it forces `Failed` and returns `ConsensusUnreachable`; hence a second
timeout on the resulting session is always the no-op, so the effect on
the state is idempotent. -/
theorem c7_session_timeout {σ τ Q R J : Type} (s : JobSession σ τ Q R J) :
    ((s.data.state = JobSessionState.Finished ∨ s.data.state = JobSessionState.Failed) →
      s.on_session_timeout = (Except.ok (), s)) ∧
    (s.data.state ≠ JobSessionState.Finished → s.data.state ≠ JobSessionState.Failed →
      s.on_session_timeout =
        (Except.error Error.ConsensusUnreachable,
         { s with data := { s.data with state := JobSessionState.Failed } })) ∧
    (s.on_session_timeout).2.on_session_timeout = (Except.ok (), (s.on_session_timeout).2) := by
  refine ⟨?_, ?_, ?_⟩
  · intro hFF
    unfold JobSession.on_session_timeout
    rw [if_pos hFF]
  · intro h1 h2
    unfold JobSession.on_session_timeout
    rw [if_neg (fun hc => hc.elim h1 h2)]
  · unfold JobSession.on_session_timeout
    split <;> rfl

/-- C5: a slave's `on_partial_request` rejects a sender other than the
configured master and rejects any request arriving at a master, both with
`InvalidMessage`; in a state other than `Inactive`/`Finished` it fails
with `InvalidStateForRequest`; otherwise the executor's `Respond` verdict
sets `Finished` and the `Reject` verdict sets `Failed`, and in both cases
the (possibly rejecting) response is sent to the master, the send's
result being the call's result. -/
theorem c5_partial_request {σ τ Q R J : Type} (s : JobSession σ τ Q R J)
    (node : NodeId) (q : Q) :
    (node ≠ s.meta.master_node_id →
      s.on_partial_request node q = (Except.error Error.InvalidMessage, s)) ∧
    (s.meta.self_node_id = s.meta.master_node_id →
      s.on_partial_request node q = (Except.error Error.InvalidMessage, s)) ∧
    (node = s.meta.master_node_id → s.meta.self_node_id ≠ s.meta.master_node_id →
      s.data.state ≠ JobSessionState.Inactive → s.data.state ≠ JobSessionState.Finished →
      s.on_partial_request node q = (Except.error Error.InvalidStateForRequest, s)) ∧
    (∀ resp ex1, node = s.meta.master_node_id → s.meta.self_node_id ≠ s.meta.master_node_id →
      (s.data.state = JobSessionState.Inactive ∨ s.data.state = JobSessionState.Finished) →
      s.executor.process_partial_request s.exState q =
        (Except.ok (JobPartialRequestAction.Respond resp), ex1) →
      s.on_partial_request node q =
        ((s.transport.send_partial_response s.trState node resp).1,
         { s with exState := ex1,
                  trState := (s.transport.send_partial_response s.trState node resp).2,
                  data := { s.data with state := JobSessionState.Finished } })) ∧
    (∀ resp ex1, node = s.meta.master_node_id → s.meta.self_node_id ≠ s.meta.master_node_id →
      (s.data.state = JobSessionState.Inactive ∨ s.data.state = JobSessionState.Finished) →
      s.executor.process_partial_request s.exState q =
        (Except.ok (JobPartialRequestAction.Reject resp), ex1) →
      s.on_partial_request node q =
        ((s.transport.send_partial_response s.trState node resp).1,
         { s with exState := ex1,
                  trState := (s.transport.send_partial_response s.trState node resp).2,
                  data := { s.data with state := JobSessionState.Failed } })) := by
  refine ⟨?_, ?_, ?_, ?_, ?_⟩
  · intro hnode
    unfold JobSession.on_partial_request
    rw [if_pos hnode]
  · intro hm
    unfold JobSession.on_partial_request
    by_cases hnode : node = s.meta.master_node_id
    · rw [if_neg (fun hh => hh hnode), if_pos hm]
    · rw [if_pos hnode]
  · intro hnode hm h1 h2
    unfold JobSession.on_partial_request
    rw [if_neg (fun hh => hh hnode), if_neg hm, if_pos ⟨h1, h2⟩]
  · intro resp ex1 hnode hm hIF hproc
    unfold JobSession.on_partial_request
    rw [if_neg (fun hh => hh hnode), if_neg hm, if_neg (fun hc => hIF.elim hc.1 hc.2), hproc]
  · intro resp ex1 hnode hm hIF hproc
    unfold JobSession.on_partial_request
    rw [if_neg (fun hh => hh hnode), if_neg hm, if_neg (fun hc => hIF.elim hc.1 hc.2), hproc]

/-- C6: `initialize` fails with `ConsensusUnreachable` when fewer than
`threshold + 1` nodes are supplied, and with `InvalidStateForRequest`
when the session is not `Inactive`; after a successful `initialize`, a
second call always fails — with `ConsensusUnreachable` when its node set
is too small (the node-count check runs first), with
`InvalidStateForRequest` otherwise. -/
theorem c6_initialize_preconditions {σ τ Q R J : Type} (s : JobSession σ τ Q R J)
    (nodes : Finset NodeId) :
    (nodes.card < s.meta.threshold + 1 →
      s.initializeSession nodes = some (Except.error Error.ConsensusUnreachable, s)) ∧
    (¬ nodes.card < s.meta.threshold + 1 → s.data.state ≠ JobSessionState.Inactive →
      s.initializeSession nodes = some (Except.error Error.InvalidStateForRequest, s)) ∧
    (∀ s', s.initializeSession nodes = some (Except.ok (), s') →
      ∀ nodes2 : Finset NodeId,
        s'.initializeSession nodes2 =
          if nodes2.card < s.meta.threshold + 1 then
            some (Except.error Error.ConsensusUnreachable, s')
          else some (Except.error Error.InvalidStateForRequest, s')) := by
  refine ⟨?_, ?_, ?_⟩
  · intro hcard
    unfold JobSession.initializeSession
    rw [if_pos hcard]
  · intro hcard hstate
    unfold JobSession.initializeSession
    rw [if_neg hcard, if_pos hstate]
  · intro s' h nodes2
    have hmeta : s'.meta = s.meta := (initializeSession_const h).1
    have hni : s'.data.state ≠ JobSessionState.Inactive := by
      rcases initializeSession_ok_state h with hh | hh <;> rw [hh] <;>
        exact fun hc => JobSessionState.noConfusion hc
    unfold JobSession.initializeSession
    rw [hmeta]
    by_cases hc : nodes2.card < s.meta.threshold + 1
    · rw [if_pos hc, if_pos hc]
    · rw [if_neg hc, if_neg hc, if_pos hni]

/-- C4: for the threshold-1 master {A = 1 = self, B = 2} whose executor
accepts every response, `initialize` leaves the round `Active` with A's
self-response accepted; `on_partial_response(B, ·)` reaches
`threshold + 1 = 2` accepted responses and sets `Finished`; a subsequent
`on_node_error(B)` removes B from `responses` (leaving only A's), adds B
to `rejects`, and — since the remaining `responses.len() = 1` is below
`threshold + 1`, reverting `Finished`, and `requests.len() +
responses.len() = 1 < 2` — fails the round with `ConsensusUnreachable`
and state `Failed`. -/
theorem c4_finished_then_node_error :
    stepRes sAccT1 (Op.init {1, 2}) = some (Except.ok ()) ∧
    (stepOk sAccT1 (Op.init {1, 2})).data.state = JobSessionState.Active ∧
    (stepOk sAccT1 (Op.init {1, 2})).data.active_data = some ⟨{2}, ∅, [(1, ())]⟩ ∧
    stepRes (stepOk sAccT1 (Op.init {1, 2})) (Op.response 2 ()) = some (Except.ok ()) ∧
    (stepOk (stepOk sAccT1 (Op.init {1, 2})) (Op.response 2 ())).data.state =
      JobSessionState.Finished ∧
    (stepOk (stepOk sAccT1 (Op.init {1, 2})) (Op.response 2 ())).data.active_data =
      some ⟨∅, ∅, [(1, ()), (2, ())]⟩ ∧
    stepRes (stepOk (stepOk sAccT1 (Op.init {1, 2})) (Op.response 2 ())) (Op.nodeError 2) =
      some (Except.error Error.ConsensusUnreachable) ∧
    (stepOk (stepOk (stepOk sAccT1 (Op.init {1, 2})) (Op.response 2 ())) (Op.nodeError 2)).data.state =
      JobSessionState.Failed ∧
    (stepOk (stepOk (stepOk sAccT1 (Op.init {1, 2})) (Op.response 2 ())) (Op.nodeError 2)).data.active_data =
      some ⟨∅, {2}, [(1, ())]⟩ ∧
    ([((1 : NodeId), ())] : List (NodeId × Unit)).length < metaM1.threshold + 1 ∧
    (∅ : Finset NodeId).card + ([((1 : NodeId), ())] : List (NodeId × Unit)).length <
      metaM1.threshold + 1 := by
  refine ⟨?_, ?_, ?_, ?_, ?_, ?_, ?_, ?_, ?_, ?_, ?_⟩ <;> decide

/-- C1 as stated is false: from the fresh threshold-0 master `sIg0`,
`initialize({2})` then `on_partial_response(2, ·)` with an executor that
answers `Ignore` returns `Ok` yet leaves the session `Active` with
`requests.len() + responses.len() = 0 < threshold + 1 = 1`, because the
sender is removed from `requests` before the `Ignore` verdict and nothing
restores it or fails the round. -/
theorem c1_counterexample :
    sIg0.meta.self_node_id = sIg0.meta.master_node_id ∧
    Reachable sIg0 (stepOk (stepOk sIg0 (Op.init {2})) (Op.response 2 ())) ∧
    stepRes (stepOk sIg0 (Op.init {2})) (Op.response 2 ()) = some (Except.ok ()) ∧
    (stepOk (stepOk sIg0 (Op.init {2})) (Op.response 2 ())).data.state =
      JobSessionState.Active ∧
    (stepOk (stepOk sIg0 (Op.init {2})) (Op.response 2 ())).data.active_data =
      some ⟨∅, ∅, []⟩ ∧
    quorum (⟨∅, ∅, []⟩ : ActiveJobSessionData Unit) < sIg0.meta.threshold + 1 := by
  refine ⟨rfl, ?_, by decide, by decide, by decide, by decide⟩
  exact reachable_stepOk (reachable_stepOk Reachable.refl _ (by decide)) _ (by decide)

/-- C1 amended: provided every `check_partial_response` verdict of the
session's executor is `Ok Accept` or `Ok Reject` — never `Ignore` and
never an error, which holds for every executor of this repository — every
state of a master session reachable from a fresh session keeps
`requests.len() + responses.len() ≥ threshold + 1` while `Active` or
`Finished`, and any reachable state whose quorum lies below
`threshold + 1` is `Failed`. -/
theorem c1_amended_quorum_invariant {σ τ Q R J : Type} (meta : SessionMeta)
    (e : JobExecutor σ Q R J) (est : σ) (tr : JobTransport τ Q R) (tst : τ)
    (s : JobSession σ τ Q R J)
    (hmaster : meta.self_node_id = meta.master_node_id)
    (hgood : GoodCheck e)
    (hreach : Reachable (JobSession.new meta e est tr tst) s) :
    ∀ ad, s.data.active_data = some ad →
      ((s.data.state = JobSessionState.Active ∨ s.data.state = JobSessionState.Finished) →
        s.meta.threshold + 1 ≤ quorum ad) ∧
      (quorum ad < s.meta.threshold + 1 → s.data.state = JobSessionState.Failed) := by
  have hB : InvB s := reachable_invB hreach hgood
    (fun ad had => Option.noConfusion had) (fun ad had => Option.noConfusion had)
  intro ad had
  obtain ⟨hni, hq⟩ := hB ad had
  refine ⟨hq, ?_⟩
  intro hlt
  cases hstate : s.data.state
  · exact absurd hstate hni
  · exact absurd (hq (Or.inl hstate)) (Nat.not_le.mpr hlt)
  · exact absurd (hq (Or.inr hstate)) (Nat.not_le.mpr hlt)
  · rfl

theorem c1_amended_witness :
    (0 : Nat) + 1 ≤ quorum (⟨∅, ∅, [((1 : NodeId), ())]⟩ : ActiveJobSessionData Unit) := by
  have hgood : GoodCheck acceptExecutor := fun st n r =>
    ⟨JobPartialResponseAction.Accept, st, rfl,
     fun hh => JobPartialResponseAction.noConfusion hh⟩
  have h := c1_amended_quorum_invariant metaM0 acceptExecutor () unitTransport ()
    (stepOk sAcc0 (Op.init {1})) rfl hgood
    (reachable_stepOk Reachable.refl _ (by decide))
    ⟨∅, ∅, [((1 : NodeId), ())]⟩ (by decide)
  exact h.1 (Or.inr (by decide))

/-- C2 as stated is false: in the `Active` master session `sIg1` node 2
is in `requests`, and its `Ignore`-checked response returns `Ok`, yet the
session is not left unchanged — node 2 has been removed from `requests`. -/
theorem c2_counterexample :
    sIg1.meta.self_node_id = sIg1.meta.master_node_id ∧
    sIg1.data.state = JobSessionState.Active ∧
    sIg1.requests = some {2} ∧
    (ignoreExecutor.check_partial_response () 2 ()).1 =
      Except.ok JobPartialResponseAction.Ignore ∧
    stepRes sIg1 (Op.response 2 ()) = some (Except.ok ()) ∧
    (stepOk sIg1 (Op.response 2 ())).requests = some ∅ ∧
    (stepOk sIg1 (Op.response 2 ())).requests ≠ sIg1.requests := by
  refine ⟨rfl, by decide, by decide, rfl, by decide, by decide, by decide⟩

/-- C2 amended: when the executor answers `Ignore`, `on_partial_response`
returns `Ok` and leaves the state, `rejects`, `responses`, the transport
state and the session meta unchanged, but the responding node has already
been removed from `requests` (the removal precedes the verdict). -/
theorem c2_amended_ignore_effect {σ τ Q R J : Type} (s : JobSession σ τ Q R J)
    (node : NodeId) (r : R) (ad : ActiveJobSessionData R) (ex1 : σ)
    (hm : s.meta.self_node_id = s.meta.master_node_id)
    (hstate : s.data.state = JobSessionState.Active ∨ s.data.state = JobSessionState.Finished)
    (hsome : s.data.active_data = some ad)
    (hnode : node ∈ ad.requests)
    (hchk : s.executor.check_partial_response s.exState node r =
      (Except.ok JobPartialResponseAction.Ignore, ex1)) :
    s.on_partial_response node r =
      some (Except.ok (),
        { s with exState := ex1,
                 data := ⟨s.data.state, some ⟨ad.requests.erase node, ad.rejects, ad.responses⟩⟩ }) := by
  have hrole : ¬s.meta.self_node_id ≠ s.meta.master_node_id := not_not_intro hm
  have hguard : ¬(s.data.state ≠ JobSessionState.Active ∧
      s.data.state ≠ JobSessionState.Finished) := fun hc => hstate.elim hc.1 hc.2
  have hreq : ¬node ∉ ad.requests := not_not_intro hnode
  unfold JobSession.on_partial_response
  rw [if_neg hrole, if_neg hguard]
  split
  next h0 => rw [hsome] at h0; exact Option.noConfusion h0
  next ad2 h2 =>
    rw [hsome] at h2
    cases Option.some.inj h2
    rw [if_neg hreq]
    split
    next e heq => rw [hchk] at heq; exact absurd heq (fun hh => Except.noConfusion hh)
    next heq => rw [hchk]
    next heq =>
      rw [hchk] at heq
      exact absurd (Except.ok.inj heq) (fun hh => JobPartialResponseAction.noConfusion hh)
    next heq =>
      rw [hchk] at heq
      exact absurd (Except.ok.inj heq) (fun hh => JobPartialResponseAction.noConfusion hh)

theorem c2_amended_witness :
    sIg1.on_partial_response 2 () =
      some (Except.ok (),
        { sIg1 with exState := (),
                    data := ⟨sIg1.data.state,
                             some ⟨({2} : Finset NodeId).erase 2, ∅, []⟩⟩ }) := by
  exact c2_amended_ignore_effect sIg1 2 () ⟨{2}, ∅, []⟩ () rfl (Or.inl (by decide))
    (by decide) (by decide) rfl

/-- C3 as stated is false at threshold 1: initializing the accepting
master `sAccT1` with exactly `threshold + 1 = 2` nodes including self
succeeds but leaves the session `Active` (only self's own response is
processed inside `initialize`; the remote node's acceptance still needs a
later `on_partial_response`). -/
theorem c3_counterexample :
    GoodCheck acceptExecutor ∧
    ({1, 2} : Finset NodeId).card = sAccT1.meta.threshold + 1 ∧
    sAccT1.meta.self_node_id ∈ ({1, 2} : Finset NodeId) ∧
    stepRes sAccT1 (Op.init {1, 2}) = some (Except.ok ()) ∧
    (stepOk sAccT1 (Op.init {1, 2})).data.state ≠ JobSessionState.Finished := by
  refine ⟨?_, by decide, by decide, by decide, by decide⟩
  exact fun st n r => ⟨JobPartialResponseAction.Accept, st, rfl,
    fun hh => JobPartialResponseAction.noConfusion hh⟩

/-- The `Accept`-to-`Finished` path of `on_partial_response`, solved once
for reuse: an accepted response that reaches `threshold + 1` stored
responses finishes the round. -/
theorem on_partial_response_accept_finish {σ τ Q R J : Type} (s : JobSession σ τ Q R J)
    (node : NodeId) (r : R) (ad : ActiveJobSessionData R) (ex2 : σ)
    (hm : s.meta.self_node_id = s.meta.master_node_id)
    (hstate : s.data.state = JobSessionState.Active ∨ s.data.state = JobSessionState.Finished)
    (hsome : s.data.active_data = some ad)
    (hnode : node ∈ ad.requests)
    (hchk : s.executor.check_partial_response s.exState node r =
      (Except.ok JobPartialResponseAction.Accept, ex2))
    (hfin : ¬ (mapInsert ad.responses node r).length < s.meta.threshold + 1) :
    s.on_partial_response node r =
      some (Except.ok (),
        { s with exState := ex2,
                 data := ⟨JobSessionState.Finished,
                          some ⟨ad.requests.erase node, ad.rejects,
                                mapInsert ad.responses node r⟩⟩ }) := by
  have hrole : ¬s.meta.self_node_id ≠ s.meta.master_node_id := not_not_intro hm
  have hguard : ¬(s.data.state ≠ JobSessionState.Active ∧
      s.data.state ≠ JobSessionState.Finished) := fun hc => hstate.elim hc.1 hc.2
  have hreq : ¬node ∉ ad.requests := not_not_intro hnode
  unfold JobSession.on_partial_response
  rw [if_neg hrole, if_neg hguard]
  split
  next h0 => rw [hsome] at h0; exact Option.noConfusion h0
  next ad2 h2 =>
    rw [hsome] at h2
    cases Option.some.inj h2
    rw [if_neg hreq]
    split
    next e heq => rw [hchk] at heq; exact absurd heq (fun hh => Except.noConfusion hh)
    next heq =>
      rw [hchk] at heq
      exact absurd (Except.ok.inj heq) (fun hh => JobPartialResponseAction.noConfusion hh)
    next heq =>
      rw [hchk] at heq
      exact absurd (Except.ok.inj heq) (fun hh => JobPartialResponseAction.noConfusion hh)
    next heq =>
      rw [if_neg hfin, hchk]

/-- C3 amended: for threshold 0 — the only threshold at which all
`threshold + 1` nodes can answer inside `initialize` — initializing a
fresh master session with exactly the node set `{self}`, whose prepared
request the executor answers with `Respond` and whose response it
accepts, drives the session to `Finished` inside `initialize` alone, the
master's own response being the single accepted one.  (For threshold ≥ 1
the remote nodes' acceptances necessarily arrive through later
`on_partial_response` calls, see the counterexample.) -/
theorem c3_amended_threshold0 {σ τ Q R J : Type} (meta : SessionMeta)
    (e : JobExecutor σ Q R J) (est : σ) (tr : JobTransport τ Q R) (tst : τ)
    (q : Q) (resp : R) (ex1 ex2 : σ)
    (hthr : meta.threshold = 0)
    (hmaster : meta.self_node_id = meta.master_node_id)
    (hprep : e.prepare_partial_request est meta.self_node_id {meta.self_node_id} = Except.ok q)
    (hproc : e.process_partial_request est q =
      (Except.ok (JobPartialRequestAction.Respond resp), ex1))
    (hcheck : e.check_partial_response ex1 meta.self_node_id resp =
      (Except.ok JobPartialResponseAction.Accept, ex2)) :
    ∃ s', (JobSession.new meta e est tr tst).initializeSession {meta.self_node_id} =
        some (Except.ok (), s') ∧
      s'.data.state = JobSessionState.Finished ∧
      s'.data.active_data = some ⟨∅, ∅, [(meta.self_node_id, resp)]⟩ := by
  have hsort : sortNodes {meta.self_node_id} = [meta.self_node_id] := by
    rw [sortNodes_eq_sort, Finset.sort_singleton]
  have hcard : ¬ ({meta.self_node_id} : Finset NodeId).card < meta.threshold + 1 := by
    rw [Finset.card_singleton, hthr]
    omega
  have hloop : sendRequestsLoop e est tr meta.self_node_id {meta.self_node_id}
      (sortNodes {meta.self_node_id}) tst false = (Except.ok (), tst, true) := by
    rw [hsort]
    unfold sendRequestsLoop
    rw [if_neg (not_not_intro rfl)]
    rfl
  unfold JobSession.initializeSession
  simp only [JobSession.new]
  rw [if_neg hcard, if_neg (not_not_intro rfl)]
  split
  next e' t' w' hmatch =>
    rw [hloop] at hmatch
    exact absurd hmatch (by simp)
  next a t' w' hmatch =>
    rw [hloop] at hmatch
    simp only [Prod.mk.injEq] at hmatch
    obtain ⟨-, rfl, rfl⟩ := hmatch
    rw [if_pos rfl]
    split
    next e1 hpre => rw [hprep] at hpre; exact absurd hpre (fun hh => Except.noConfusion hh)
    next q2 hpre =>
      rw [hprep] at hpre
      cases Except.ok.inj hpre
      split
      next e1 ex1' hpr =>
        rw [hproc] at hpr
        simp only [Prod.mk.injEq] at hpr
        exact absurd hpr.1 (fun hh => Except.noConfusion hh)
      next resp2 ex1' hpr =>
        rw [hproc] at hpr
        simp only [Prod.mk.injEq, Except.ok.injEq, JobPartialRequestAction.Respond.injEq] at hpr
        obtain ⟨rfl, rfl⟩ := hpr
        have hfin : ¬ (mapInsert ([] : List (NodeId × R)) meta.self_node_id resp).length <
            meta.threshold + 1 := by
          rw [hthr]
          intro hh
          simp [mapInsert, mapErase] at hh
        have hda : (⟨({meta.self_node_id} : Finset NodeId).erase meta.self_node_id, ∅,
              mapInsert ([] : List (NodeId × R)) meta.self_node_id resp⟩ :
            ActiveJobSessionData R) = ⟨∅, ∅, [(meta.self_node_id, resp)]⟩ := by
          rw [Finset.erase_singleton]
          exact rfl
        exact ⟨_, on_partial_response_accept_finish
            { meta := meta, executor := e, exState := ex1, transport := tr, trState := tst,
              data := ⟨JobSessionState.Active, some ⟨{meta.self_node_id}, ∅, []⟩⟩ }
            meta.self_node_id resp ⟨{meta.self_node_id}, ∅, []⟩ ex2
            hmaster (Or.inl rfl) rfl (Finset.mem_singleton_self _) hcheck hfin,
          rfl, congrArg some hda⟩
      next resp2 ex1' hpr =>
        rw [hproc] at hpr
        simp only [Prod.mk.injEq] at hpr
        exact absurd (Except.ok.inj hpr.1) (fun hh => JobPartialRequestAction.noConfusion hh)

theorem c3_amended_witness :
    ∃ s', sAcc0.initializeSession {1} = some (Except.ok (), s') ∧
      s'.data.state = JobSessionState.Finished ∧
      s'.data.active_data = some ⟨∅, ∅, [((1 : NodeId), ())]⟩ := by
  exact c3_amended_threshold0 metaM0 acceptExecutor () unitTransport () () () () ()
    rfl rfl rfl rfl rfl

/-- C8: in every state of a master session reachable from a fresh
session, a node id lies in at most one of the three collections
`requests`, `rejects`, `responses` of `ActiveJobSessionData`. -/
theorem c8_collections_disjoint {σ τ Q R J : Type} (meta : SessionMeta)
    (e : JobExecutor σ Q R J) (est : σ) (tr : JobTransport τ Q R) (tst : τ)
    (s : JobSession σ τ Q R J)
    (hmaster : meta.self_node_id = meta.master_node_id)
    (hreach : Reachable (JobSession.new meta e est tr tst) s) :
    ∀ ad, s.data.active_data = some ad → ∀ n : NodeId,
      ¬(n ∈ ad.requests ∧ n ∈ ad.rejects) ∧
      ¬(n ∈ ad.requests ∧ n ∈ mapKeys ad.responses) ∧
      ¬(n ∈ ad.rejects ∧ n ∈ mapKeys ad.responses) := by
  intro ad had n
  obtain ⟨-, h2, h3, h4⟩ :=
    reachable_invA hreach (fun ad' had' => Option.noConfusion had') ad had
  exact ⟨fun hc => h2 n hc.1 hc.2, fun hc => h3 n hc.1 hc.2, fun hc => h4 n hc.1 hc.2⟩

theorem c8_witness :
    ¬((1 : NodeId) ∈ (∅ : Finset NodeId) ∧ (1 : NodeId) ∈ (∅ : Finset NodeId)) ∧
    ¬((1 : NodeId) ∈ (∅ : Finset NodeId) ∧
      (1 : NodeId) ∈ mapKeys [((1 : NodeId), ())]) ∧
    ¬((1 : NodeId) ∈ (∅ : Finset NodeId) ∧
      (1 : NodeId) ∈ mapKeys [((1 : NodeId), ())]) := by
  exact c8_collections_disjoint metaM0 acceptExecutor () unitTransport ()
    (stepOk sAcc0 (Op.init {1})) rfl (reachable_stepOk Reachable.refl _ (by decide))
    ⟨∅, ∅, [((1 : NodeId), ())]⟩ (by decide) 1

/-- C9: on a master session, `initialize` commits `active_data` together
with the `Active` state before replaying self's response, so in every
reachable state the `Active` and `Finished` states come with a populated
`active_data`, and `on_partial_response` never panics on its `expect`
(modelled as never returning `none`). -/
theorem c9_active_data_always_there {σ τ Q R J : Type} (meta : SessionMeta)
    (e : JobExecutor σ Q R J) (est : σ) (tr : JobTransport τ Q R) (tst : τ)
    (s : JobSession σ τ Q R J)
    (hmaster : meta.self_node_id = meta.master_node_id)
    (hreach : Reachable (JobSession.new meta e est tr tst) s) :
    ((s.data.state = JobSessionState.Active ∨ s.data.state = JobSessionState.Finished) →
      s.data.active_data.isSome) ∧
    ∀ (n : NodeId) (r : R), s.on_partial_response n r ≠ none := by
  have hC : InvC s := reachable_invC hreach
    (fun _ hAF => by rcases hAF with hh | hh <;> exact JobSessionState.noConfusion hh)
  have hsm : s.meta.self_node_id = s.meta.master_node_id := by
    rw [(reachable_const hreach).1]; exact hmaster
  refine ⟨hC hsm, ?_⟩
  intro n r hnone
  unfold JobSession.on_partial_response at hnone
  split at hnone
  · exact Option.noConfusion hnone
  split at hnone
  · exact Option.noConfusion hnone
  next hguard =>
  have hAF : s.data.state = JobSessionState.Active ∨ s.data.state = JobSessionState.Finished :=
    or_iff_not_imp_left.mpr fun ha => not_not.mp fun hf => hguard ⟨ha, hf⟩
  split at hnone
  next h0 =>
    have hS := hC hsm hAF
    rw [h0] at hS
    exact Bool.noConfusion hS
  next ad hsome =>
    repeat' split at hnone
    all_goals exact Option.noConfusion hnone

theorem c9_witness : sAcc0.on_partial_response 1 () ≠ none := by
  exact (c9_active_data_always_there metaM0 acceptExecutor () unitTransport ()
    sAcc0 rfl Reachable.refl).2 1 ()

/-- C10: a session used in the slave role (driven only by incoming
requests/responses, disconnects and timeouts — `initialize` is the
master-only entry point, guarded only by a `debug_assert!`) never
populates `active_data`; hence the accessors `requests()`, `responses()`
and `rejects()` panic (modelled as `none`) rather than return an error,
and `result()` called after the slave legitimately reached `Finished` by
answering a partial request passes the state check and then panics on the
missing `active_data` instead of returning `InvalidStateForRequest`. -/
theorem c10_slave_accessors_panic {σ τ Q R J : Type} (meta : SessionMeta)
    (e : JobExecutor σ Q R J) (est : σ) (tr : JobTransport τ Q R) (tst : τ)
    (s : JobSession σ τ Q R J)
    (hslave : meta.self_node_id ≠ meta.master_node_id)
    (hreach : SlaveReachable (JobSession.new meta e est tr tst) s) :
    s.data.active_data = none ∧
    s.requests = none ∧ s.responses = none ∧ s.rejects = none ∧
    (s.data.state = JobSessionState.Finished → s.result = none) := by
  have hnone : s.data.active_data = none := slaveReachable_active_none hreach rfl
  refine ⟨hnone, ?_, ?_, ?_, ?_⟩
  · unfold JobSession.requests; rw [hnone]; rfl
  · unfold JobSession.responses; rw [hnone]; rfl
  · unfold JobSession.rejects; rw [hnone]; rfl
  · intro hfin
    unfold JobSession.result
    rw [if_neg (not_not_intro hfin), hnone]

theorem c10_witness :
    sSl1.data.state = JobSessionState.Finished ∧
    sSl1.result = none ∧ sSl1.requests = none := by
  have h := c10_slave_accessors_panic metaS0 acceptExecutor () unitTransport () sSl1
    (by decide)
    (slaveReachable_stepOk SlaveReachable.refl _ (by decide)
      (fun nodes hh => Op.noConfusion hh))
  exact ⟨by decide, h.2.2.2.2 (by decide), h.2.1⟩

end SecretStore
